import Mathlib

/-!
The client constructor and the signing transport of metal-cloud-sdk-go.

A shallow embedding of `metalcloud_client.go`:

* `GetMetalcloudClient`, the constructor that validates its arguments and derives the
  user identifier from the API key;
* `signatureAdderRoundTripper.RoundTrip`, the HTTP round tripper that signs the request
  body with HMAC-MD5 and adds the signature to the query string as `verify`.

Go strings and byte slices are sequences of bytes. The functions of the Go standard library
the file calls (`strings.Split`, `strconv.Atoi`, `net/url`, `crypto/hmac`, `crypto/md5`,
`encoding/hex`, `io/ioutil`) are modelled by what they are documented to compute.
-/

set_option autoImplicit false

namespace Metalcloud

/-! ## Bytes and strings -/

/-- A byte. -/
abbrev Byte := Fin 256

/-- A Go `string` (or `[]byte`): a finite sequence of bytes. -/
abbrev GoString := List Byte

/-- The byte with the given value (taken modulo 256). -/
def byte (n : Nat) : Byte := Fin.ofNat n

/-- UTF-8 encoding of one character, as Go stores the characters of a string literal. -/
def utf8 (c : Char) : GoString :=
  let n := c.toNat
  if n < 0x80 then [byte n]
  else if n < 0x800 then [byte (0xC0 + n / 64), byte (0x80 + n % 64)]
  else if n < 0x10000 then
    [byte (0xE0 + n / 4096), byte (0x80 + n / 64 % 64), byte (0x80 + n % 64)]
  else
    [byte (0xF0 + n / 262144), byte (0x80 + n / 4096 % 64), byte (0x80 + n / 64 % 64),
      byte (0x80 + n % 64)]

/-- The bytes of a string literal. -/
def goStr (s : String) : GoString := s.toList.flatMap utf8

/-- The byte `:`. -/
def colon : Byte := 0x3A

/-! ## `strings.Split` -/

/-- The function `strings.Split(s, sep)` for a separator of one byte: the pieces of `s` between the
occurrences of `sep`. The result is never empty; a string without `sep` gives `[s]`. -/
def Split (s : GoString) (sep : Byte) : List GoString :=
  match s with
  | [] => [[]]
  | c :: cs =>
    if c = sep then [] :: Split cs sep
    else
      match Split cs sep with
      | [] => [[c]]
      | h :: t => (c :: h) :: t

/-! ## `strconv.Atoi` -/

/-- The errors the modelled functions return. -/
inductive Error where
  /-- The `errors.New` of the empty user check. -/
  | emptyUser
  /-- The `errors.New` of the empty API key check. -/
  | emptyAPIKey
  /-- The `errors.New` of the empty endpoint check. -/
  | emptyEndpoint
  /-- An error of `url.ParseRequestURI`. -/
  | url
  /-- A `*strconv.NumError` of `strconv.Atoi`. -/
  | num
  /-- An error of `url.ParseQuery`. -/
  | query
  /-- An error of the network transport, with an identifying code. -/
  | transport (code : Nat)
  deriving DecidableEq, Repr

/-- Whether a byte is an ASCII decimal digit. -/
def isDigit (b : Byte) : Bool := 0x30 ≤ b.val && b.val ≤ 0x39

/-- The loop of `strconv.Atoi` over the digits: `n = n*10 + int(ch - '0')`, failing at the
first byte that is not a decimal digit. -/
def parseDigits : GoString → Nat → Option Nat
  | [], n => some n
  | ch :: rest, n => if isDigit ch then parseDigits rest (n * 10 + (ch.val - 0x30)) else none

/-- The function `strconv.Atoi(s)` where `int` has `intSize` bits: an optional sign `+` or `-`, then
one or more decimal digits; the value must lie in `[-2^(intSize-1), 2^(intSize-1) - 1]`.
Anything else is an error (a syntax error or a range error of `strconv`). -/
def Atoi (intSize : Nat) (s : GoString) : Except Error Int :=
  let neg := s.head? = some 0x2D
  let digits := if s.head? = some 0x2D ∨ s.head? = some 0x2B then s.tail else s
  if digits = [] then Except.error Error.num
  else
    match parseDigits digits 0 with
    | none => Except.error Error.num
    | some n =>
      if neg then
        if n ≤ 2 ^ (intSize - 1) then Except.ok (-(n : Int)) else Except.error Error.num
      else
        if n < 2 ^ (intSize - 1) then Except.ok (n : Int) else Except.error Error.num

/-! ## `url.ParseRequestURI` -/

/-- The function `stringContainsCTLByte` of `net/url`: some byte is below 0x20 or is 0x7f. -/
def stringContainsCTLByte (s : GoString) : Bool := s.any (fun b => b.val < 0x20 || b.val = 0x7F)

/-- Whether a byte is an ASCII letter. -/
def isLetter (b : Byte) : Bool :=
  (0x61 ≤ b.val && b.val ≤ 0x7A) || (0x41 ≤ b.val && b.val ≤ 0x5A)

/-- The function `getScheme` of `net/url`, scanning from position `i` with `seen` the bytes
before it: `none` is the error "missing protocol scheme" (a colon in first position),
`some (scheme, rest)` the split, with an empty scheme when the text does not start with
`letter (letter | digit | + | - | .)* :`. -/
def getSchemeFrom (rawURL : GoString) : GoString → GoString → Option (GoString × GoString)
  | _, [] => some ([], rawURL)
  | seen, c :: cs =>
    if isLetter c then getSchemeFrom rawURL (seen ++ [c]) cs
    else if isDigit c || c = 0x2B || c = 0x2D || c = 0x2E then
      if seen = [] then some ([], rawURL) else getSchemeFrom rawURL (seen ++ [c]) cs
    else if c = colon then
      if seen = [] then none else some (seen, cs)
    else some ([], rawURL)

/-- The function `getScheme` of `net/url`. -/
def getScheme (rawURL : GoString) : Option (GoString × GoString) := getSchemeFrom rawURL [] rawURL

/-- Whether a byte is a hexadecimal digit (`ishex` of `net/url`). -/
def ishex (b : Byte) : Bool :=
  isDigit b || (0x61 ≤ b.val && b.val ≤ 0x66) || (0x41 ≤ b.val && b.val ≤ 0x46)

/-- The validity pass of `unescape` of `net/url` for the modes that accept every byte
(path and query component): every `%` is followed by two hexadecimal digits. -/
def validEscapes : GoString → Bool
  | [] => true
  | c :: rest =>
    if c = 0x25 then
      match rest with
      | a :: b :: rest2 => ishex a && ishex b && validEscapes rest2
      | _ => false
    else validEscapes rest

/-- The text before the first `?` (the query is split off the rest of the URL). -/
def beforeQuery (s : GoString) : GoString := s.takeWhile (fun b => b ≠ 0x3F)

/-- The function `url.ParseRequestURI(rawURL)`, as far as its error is concerned (`true`: no error).
The text is read only as an absolute URI or an absolute path. The validation of an
authority component (user information, host and port) is the parameter
`parseAuthority`. -/
def ParseRequestURI (parseAuthority : GoString → Bool) (rawURL : GoString) : Bool :=
  if stringContainsCTLByte rawURL then false
  else if rawURL = [] then false
  else if rawURL = goStr "*" then true
  else
    match getScheme rawURL with
    | none => false
    | some (scheme, rest0) =>
      let rest := beforeQuery rest0
      if rest.head? ≠ some 0x2F then
        -- a rootless path is opaque when there is a scheme, an error otherwise
        !(scheme = [])
      else if scheme ≠ [] ∧ (goStr "//").isPrefixOf rest then
        let tail := rest.drop 2
        let authority := tail.takeWhile (fun b => b ≠ 0x2F)
        let path := tail.dropWhile (fun b => b ≠ 0x2F)
        parseAuthority authority && validEscapes path
      else validEscapes rest

/-! ## `crypto/md5`, `crypto/hmac` and `encoding/hex` -/

/-- The per-round left rotation amounts of MD5 (RFC 1321). -/
def md5Shifts : List Nat :=
  [7, 12, 17, 22, 7, 12, 17, 22, 7, 12, 17, 22, 7, 12, 17, 22,
    5, 9, 14, 20, 5, 9, 14, 20, 5, 9, 14, 20, 5, 9, 14, 20,
    4, 11, 16, 23, 4, 11, 16, 23, 4, 11, 16, 23, 4, 11, 16, 23,
    6, 10, 15, 21, 6, 10, 15, 21, 6, 10, 15, 21, 6, 10, 15, 21]

/-- The additive constants of MD5: the integer part of 2^32 times the absolute value of
the sine of i + 1. -/
def md5Table : List Nat :=
  [
    0xd76aa478, 0xe8c7b756, 0x242070db, 0xc1bdceee,
    0xf57c0faf, 0x4787c62a, 0xa8304613, 0xfd469501,
    0x698098d8, 0x8b44f7af, 0xffff5bb1, 0x895cd7be,
    0x6b901122, 0xfd987193, 0xa679438e, 0x49b40821,
    0xf61e2562, 0xc040b340, 0x265e5a51, 0xe9b6c7aa,
    0xd62f105d, 0x02441453, 0xd8a1e681, 0xe7d3fbc8,
    0x21e1cde6, 0xc33707d6, 0xf4d50d87, 0x455a14ed,
    0xa9e3e905, 0xfcefa3f8, 0x676f02d9, 0x8d2a4c8a,
    0xfffa3942, 0x8771f681, 0x6d9d6122, 0xfde5380c,
    0xa4beea44, 0x4bdecfa9, 0xf6bb4b60, 0xbebfbc70,
    0x289b7ec6, 0xeaa127fa, 0xd4ef3085, 0x04881d05,
    0xd9d4d039, 0xe6db99e5, 0x1fa27cf8, 0xc4ac5665,
    0xf4292244, 0x432aff97, 0xab9423a7, 0xfc93a039,
    0x655b59c3, 0x8f0ccc92, 0xffeff47d, 0x85845dd1,
    0x6fa87e4f, 0xfe2ce6e0, 0xa3014314, 0x4e0811a1,
    0xf7537e82, 0xbd3af235, 0x2ad7d2bb, 0xeb86d391]

/-- Rotation to the left of a 32-bit word. -/
def rotl32 (x s : Nat) : Nat := ((x <<< s) ||| (x >>> (32 - s))) % 2 ^ 32

/-- Bitwise complement of a 32-bit word. -/
def not32 (x : Nat) : Nat := x ^^^ 0xFFFFFFFF

/-- The four 32-bit words of the MD5 state. -/
structure MD5State where
  a : Nat
  b : Nat
  c : Nat
  d : Nat
  deriving DecidableEq, Repr

/-- The initial MD5 state. -/
def md5Init : MD5State := { a := 0x67452301, b := 0xefcdab89, c := 0x98badcfe, d := 0x10325476 }

/-- One of the 64 operations of the MD5 compression function on the block `m` of sixteen
words. -/
def md5Step (m : List Nat) (st : MD5State) (i : Nat) : MD5State :=
  let f :=
    if i < 16 then (st.b &&& st.c) ||| (not32 st.b &&& st.d)
    else if i < 32 then (st.d &&& st.b) ||| (not32 st.d &&& st.c)
    else if i < 48 then st.b ^^^ st.c ^^^ st.d
    else st.c ^^^ (st.b ||| not32 st.d)
  let g :=
    if i < 16 then i
    else if i < 32 then (5 * i + 1) % 16
    else if i < 48 then (3 * i + 5) % 16
    else (7 * i) % 16
  let f2 := (f + st.a + md5Table.getD i 0 + m.getD g 0) % 2 ^ 32
  { a := st.d, d := st.c, c := st.b, b := (st.b + rotl32 f2 (md5Shifts.getD i 0)) % 2 ^ 32 }

/-- The little-endian 32-bit words of a sequence of bytes (given by their values). -/
def leWords : List Nat → List Nat
  | b0 :: b1 :: b2 :: b3 :: rest => (b0 + 256 * b1 + 65536 * b2 + 16777216 * b3) :: leWords rest
  | _ => []

/-- The MD5 compression function: the state after the 64-byte block. -/
def md5Block (st : MD5State) (block : List Nat) : MD5State :=
  let r := (List.range 64).foldl (md5Step (leWords block)) st
  { a := (st.a + r.a) % 2 ^ 32, b := (st.b + r.b) % 2 ^ 32, c := (st.c + r.c) % 2 ^ 32,
    d := (st.d + r.d) % 2 ^ 32 }

/-- The little-endian bytes of a number, `n` of them. -/
def leBytes : Nat → Nat → List Nat
  | 0, _ => []
  | n + 1, x => x % 256 :: leBytes n (x / 256)

/-- The MD5 padding: the byte 0x80, zero bytes up to 56 modulo 64, and the length of the
message in bits as 64-bit little-endian. -/
def md5Pad (msg : List Nat) : List Nat :=
  let zeros := (119 - msg.length % 64) % 64
  msg ++ [0x80] ++ List.replicate zeros 0 ++ leBytes 8 ((8 * msg.length) % 2 ^ 64)

/-- The state after the first `n` blocks of 64 bytes of the data. -/
def md5Blocks : Nat → MD5State → List Nat → MD5State
  | 0, st, _ => st
  | n + 1, st, data => md5Blocks n (md5Block st (data.take 64)) (data.drop 64)

/-- The MD5 digest (`md5.Sum`) of a message: sixteen bytes. -/
def md5 (msg : GoString) : GoString :=
  let data := md5Pad (msg.map Fin.val)
  let st := md5Blocks (data.length / 64) md5Init data
  (leBytes 4 st.a ++ leBytes 4 st.b ++ leBytes 4 st.c ++ leBytes 4 st.d).map byte

/-- The key of HMAC brought to the block size of 64 bytes: hashed when longer, then
padded with zero bytes. -/
def hmacKey (key : GoString) : GoString :=
  let k := if key.length > 64 then md5 key else key
  k ++ List.replicate (64 - k.length) 0

/-- HMAC-MD5 (`hmac.New(md5.New, key)`, `Write(message)`, `Sum(nil)`), RFC 2104. -/
def hmacMD5 (key message : GoString) : GoString :=
  let k := hmacKey key
  let ipad := k.map (fun b => byte (b.val ^^^ 0x36))
  let opad := k.map (fun b => byte (b.val ^^^ 0x5c))
  md5 (opad ++ md5 (ipad ++ message))

/-- The hexadecimal digit of a value below sixteen, in lower case (`hextable` of
`encoding/hex`). -/
def hexDigit (n : Nat) : Byte := if n < 10 then byte (0x30 + n) else byte (0x61 + (n - 10))

/-- The function `hex.EncodeToString`: two lower-case hexadecimal digits per byte, high nibble first. -/
def hexEncode : GoString → GoString
  | [] => []
  | b :: rest => hexDigit (b.val / 16) :: hexDigit (b.val % 16) :: hexEncode rest

/-! ## `net/url`: query strings -/

/-- The byte `&`. -/
def amp : Byte := 0x26

/-- The byte `=`. -/
def equalsSign : Byte := 0x3D

/-- The byte `;`. -/
def semicolon : Byte := 0x3B

/-- The byte `%`. -/
def percent : Byte := 0x25

/-- The byte `+`. -/
def plus : Byte := 0x2B

/-- The byte of the space character. -/
def space : Byte := 0x20

/-- The type `url.Values`, a `map[string][]string`: each key occurs once, with the list of
its values. -/
abbrev Values := List (GoString × List GoString)

/-- The lookup `v[key]` of the map: the values of the key, none when the key is absent. -/
def Values.Get : Values → GoString → List GoString
  | [], _ => []
  | (k, xs) :: rest, key => if k = key then xs else Values.Get rest key

/-- The method `Values.Add(key, value)`: `v[key] = append(v[key], value)`. -/
def Values.Add : Values → GoString → GoString → Values
  | [], key, value => [(key, [value])]
  | (k, xs) :: rest, key, value =>
    if k = key then (k, xs ++ [value]) :: rest else (k, xs) :: Values.Add rest key value

/-- The keys of the map. -/
def Values.keys (v : Values) : List GoString := v.map Prod.fst

/-- The (name, value) entries of the map. -/
def Values.entries (v : Values) : List (GoString × GoString) :=
  v.flatMap (fun kv => kv.2.map (fun x => (kv.1, x)))

/-- The function `shouldEscape(c, encodeQueryComponent)` of `net/url`: everything is escaped but the
unreserved characters, which are the letters, the digits and `-`, `_`, `.`, `~`. -/
def shouldEscape (c : Byte) : Bool :=
  !(isLetter c || isDigit c || c = 0x2D || c = 0x5F || c = 0x2E || c = 0x7E)

/-- The upper-case hexadecimal digit of a value below sixteen (`upperhex` of `net/url`). -/
def upperhex (n : Nat) : Byte := if n < 10 then byte (0x30 + n) else byte (0x41 + (n - 10))

/-- The function `url.QueryEscape`: a space becomes `+`, every other byte that must be escaped becomes
`%` and its two upper-case hexadecimal digits. -/
def QueryEscape : GoString → GoString
  | [] => []
  | c :: rest =>
    if c = space then plus :: QueryEscape rest
    else if shouldEscape c then
      percent :: upperhex (c.val >>> 4) :: upperhex (c.val &&& 15) :: QueryEscape rest
    else c :: QueryEscape rest

/-- The value of a hexadecimal digit (`unhex` of `net/url`). -/
def unhex (c : Byte) : Nat :=
  if isDigit c then c.val - 0x30
  else if 0x61 ≤ c.val ∧ c.val ≤ 0x66 then c.val - 0x61 + 10
  else if 0x41 ≤ c.val ∧ c.val ≤ 0x46 then c.val - 0x41 + 10
  else 0

/-- The decoding pass of `unescape` in query mode: `%XY` becomes the byte with these
hexadecimal digits, `+` becomes a space. -/
def unescapeBytes : GoString → GoString
  | [] => []
  | c :: rest =>
    if c = percent then
      match rest with
      | a :: b :: rest2 => byte ((unhex a <<< 4) ||| unhex b) :: unescapeBytes rest2
      | _ => []
    else if c = plus then space :: unescapeBytes rest
    else c :: unescapeBytes rest

/-- The function `url.QueryUnescape`: an error when some `%` is not followed by two hexadecimal digits,
the decoded text otherwise. -/
def QueryUnescape (s : GoString) : Except Error GoString :=
  if validEscapes s then Except.ok (unescapeBytes s) else Except.error Error.query

/-- The function `strings.Cut(s, sep)` for a separator of one byte: the text before the first `sep`
and the text after it (empty when `sep` does not occur). -/
def Cut (s : GoString) (sep : Byte) : GoString × GoString :=
  (s.takeWhile (fun b => b ≠ sep), (s.dropWhile (fun b => b ≠ sep)).tail)

/-- The body of the loop of `parseQuery` for one `&`-separated piece: a piece with a
semicolon sets the error, an empty piece is skipped, and a piece `key=value` whose two
sides unescape is added to the map; the first unescaping error is kept. -/
def parseQueryPiece (acc : Values × Option Error) (piece : GoString) : Values × Option Error :=
  if semicolon ∈ piece then (acc.1, some Error.query)
  else if piece = [] then acc
  else
    match QueryUnescape (Cut piece equalsSign).1 with
    | Except.error e => (acc.1, if acc.2 = none then some e else acc.2)
    | Except.ok key =>
      match QueryUnescape (Cut piece equalsSign).2 with
      | Except.error e => (acc.1, if acc.2 = none then some e else acc.2)
      | Except.ok value => (acc.1.Add key value, acc.2)

/-- The function `url.ParseQuery(query)`: the map of the entries that parse and the error, if any. The
loop `for query != ""` takes the text up to the next `&` at each turn, so it visits the
pieces of `strings.Split(query, "&")` from left to right (a last empty piece, which the
loop does not visit, is skipped by the body). -/
def ParseQuery (query : GoString) : Values × Option Error :=
  (Split query amp).foldl parseQueryPiece ([], none)

/-- The order of Go strings: lexicographic on the bytes. -/
def strLe : GoString → GoString → Bool
  | [], _ => true
  | _ :: _, [] => false
  | a :: as, b :: bs => a.val < b.val || (a = b && strLe as bs)

/-- The keys of the map in increasing order (`slices.Sort` of the keys). -/
def Values.sortedKeys (v : Values) : List GoString :=
  v.keys.insertionSort (fun a b => strLe a b = true)

/-- One entry written by `Encode` to its buffer: `&` when the buffer is not empty, the
escaped key, `=`, the escaped value. -/
def encodeEntry (keyEscaped : GoString) (buf : GoString) (value : GoString) : GoString :=
  (if buf ≠ [] then buf ++ [amp] else buf) ++ keyEscaped ++ [equalsSign] ++ QueryEscape value

/-- The method `Values.Encode()`: the entries as `key=value` joined by `&`, the keys in increasing
order, the values of a key in their order. -/
def Values.Encode (v : Values) : GoString :=
  v.sortedKeys.foldl (fun buf k => (v.Get k).foldl (encodeEntry (QueryEscape k)) buf) []

/-! ## `net/http`: requests and responses -/

/-- An `io.ReadCloser`: the bytes it yields before it ends, and the error it ends with,
if any (none: end of file). -/
structure Reader where
  data : GoString
  err : Option Error
  deriving DecidableEq, Repr

/-- The function `ioutil.ReadAll(r)`: the bytes read and the error. -/
def ReadAll (r : Reader) : GoString × Option Error := (r.data, r.err)

/-- The function `ioutil.NopCloser(bytes.NewBuffer(message))`: a reader of exactly these bytes. -/
def NopCloser (message : GoString) : Reader := { data := message, err := none }

/-- The fields of `url.URL`: `RawQuery`, and the rest of the URL. -/
structure URL where
  Scheme : GoString
  Host : GoString
  Path : GoString
  RawQuery : GoString
  deriving DecidableEq, Repr

/-- The fields of `http.Request` the transport reads or writes. A nil `Body` is `none`. -/
structure Request where
  Method : GoString
  URL : URL
  Body : Option Reader
  Close : Bool
  deriving DecidableEq, Repr

/-- The fields of `http.Response`. A nil `Body` is `none`. -/
structure Response where
  StatusCode : Nat
  Body : Option Reader
  deriving DecidableEq, Repr

/-- What is written to the log. -/
inductive LogEntry where
  /-- The line of `log.Printf("%s call to:%s\n", req.Method, req.URL)`. -/
  | call (method : GoString) (url : URL)
  /-- The line of `log.Println(string(message))`. -/
  | message (bytes : GoString)
  /-- The line of `log.Fatal(err)`. -/
  | fatal (err : Error)
  deriving DecidableEq, Repr

/-- How a call of `RoundTrip` ends. Each case carries the request as `RoundTrip` has
left it (the request is modified in place) and the log. -/
inductive Outcome where
  /-- The call returns `resp, err`. -/
  | returned (req : Request) (resp : Option Response) (err : Option Error)
      (log : List LogEntry)
  /-- The call ends the process in `log.Fatal`. -/
  | fatal (req : Request) (log : List LogEntry)
  /-- The call panics: a nil pointer is dereferenced. -/
  | panicked (req : Request) (log : List LogEntry)
  deriving DecidableEq, Repr

/-- The request as the call has left it. -/
def Outcome.request : Outcome → Request
  | Outcome.returned req _ _ _ => req
  | Outcome.fatal req _ => req
  | Outcome.panicked req _ => req

/-- What `http.DefaultTransport.RoundTrip(req)` returns: a response or nil, an error or
nil. -/
abbrev Transport := Request → Option Response × Option Error

/-! ## The client -/

/-- The struct `signatureAdderRoundTripper` (its embedded `http.RoundTripper` is unused:
`RoundTrip` calls `http.DefaultTransport`). -/
structure signatureAdderRoundTripper where
  APIKey : GoString
  LoggingEnabled : Bool
  DryRun : Bool
  deriving DecidableEq, Repr

/-- The `jsonrpc.RPCClient` built by `jsonrpc.NewClientWithOpts(endpoint, opts)`: it holds
the endpoint and the HTTP client, whose only configured field is the transport. -/
structure RPCClient where
  endpoint : GoString
  Transport : signatureAdderRoundTripper
  deriving DecidableEq, Repr

/-- The struct `Client`. -/
structure Client where
  rpcClient : RPCClient
  user : GoString
  apiKey : GoString
  endpoint : GoString
  userID : Int
  deriving DecidableEq, Repr

/-- The platform the program runs on: the size of `int` (`strconv.IntSize`, 32 or 64) and
the authority validation of the `net/url` release in use. -/
structure Platform where
  intSize : Nat
  parseAuthority : GoString → Bool

/-- The function `GetMetalcloudClient(user, apiKey, endpoint, loggingEnabled)`. -/
def GetMetalcloudClient (P : Platform) (user apiKey endpoint : GoString)
    (loggingEnabled : Bool) : Except Error Client :=
  if user = [] then Except.error Error.emptyUser
  else if apiKey = [] then Except.error Error.emptyAPIKey
  else if endpoint = [] then Except.error Error.emptyEndpoint
  else if ¬ ParseRequestURI P.parseAuthority endpoint then Except.error Error.url
  else
    let transport : signatureAdderRoundTripper :=
      { APIKey := apiKey, LoggingEnabled := loggingEnabled, DryRun := false }
    let rpcClient : RPCClient := { endpoint := endpoint, Transport := transport }
    let components := Split apiKey colon
    if components.length > 1 then
      match Atoi P.intSize components.head! with
      | Except.error err => Except.error err
      | Except.ok n =>
        Except.ok
          { rpcClient := rpcClient, user := user, apiKey := apiKey, endpoint := endpoint,
            userID := n }
    else
      Except.ok
        { rpcClient := rpcClient, user := user, apiKey := apiKey, endpoint := endpoint,
          userID := 0 }

/-- The method `Client.GetUserID`. -/
def Client.GetUserID (c : Client) : Int := c.userID

/-- The method `Client.GetUserEmail`. -/
def Client.GetUserEmail (c : Client) : GoString := c.user

/-- The method `Client.GetEndpoint`. -/
def Client.GetEndpoint (c : Client) : GoString := c.endpoint

/-- The method `signatureAdderRoundTripper.RoundTrip(req)`, with `http.DefaultTransport` as
`DefaultTransport`. -/
def RoundTrip (c : signatureAdderRoundTripper) (DefaultTransport : Transport)
    (req : Request) : Outcome :=
  let components := Split c.APIKey colon
  let strKeyMetaData : Option GoString :=
    if components.length > 1 then some components.head! else none
  let key := c.APIKey
  -- Read the content
  let message : GoString :=
    match req.Body with
    | some body => (ReadAll body).1
    | none => []
  let log1 : List LogEntry :=
    if c.LoggingEnabled then [LogEntry.call req.Method req.URL, LogEntry.message message]
    else []
  -- req.Close = true, and the body restored
  let req1 : Request := { req with Close := true, Body := some (NopCloser message) }
  let signature := hexEncode (hmacMD5 key message)
  match ParseQuery req1.URL.RawQuery with
  | (_, some err) => Outcome.fatal req1 (log1 ++ [LogEntry.fatal err])
  | (values, none) =>
    let signature :=
      match strKeyMetaData with
      | some metaData => metaData ++ goStr ":" ++ signature
      | none => signature
    let values := values.Add (goStr "verify") signature
    let req2 : Request := { req1 with URL := { req1.URL with RawQuery := values.Encode } }
    let result : Option Response × Option Error :=
      if ¬ c.DryRun then DefaultTransport req2 else (none, none)
    if c.LoggingEnabled then
      match result.1 with
      | none => Outcome.panicked req2 log1
      | some resp =>
        let message : GoString :=
          match resp.Body with
          | some body => (ReadAll body).1
          | none => message
        Outcome.returned req2 (some { resp with Body := some (NopCloser message) }) result.2
          (log1 ++ [LogEntry.message message])
    else Outcome.returned req2 result.1 result.2 log1

/-! ## Auxiliary definitions for the statements -/

/-- The bytes a request or response body yields when it is read; a nil body yields none. -/
def bodyBytes : Option Reader → GoString
  | some body => (ReadAll body).1
  | none => []

/-- The value the code computes for the parameter `verify`: the first component of the
key and a colon when the key splits in more than one component, then the hexadecimal
MAC. -/
def signatureOf (key message : GoString) : GoString :=
  (if (Split key colon).length > 1 then (Split key colon).head! ++ goStr ":" else []) ++
    hexEncode (hmacMD5 key message)

/-- The request as the code leaves it when the query string parses to `values`. -/
def signedRequest (key : GoString) (req : Request) (values : Values) : Request :=
  { Method := req.Method
    URL :=
      { Scheme := req.URL.Scheme
        Host := req.URL.Host
        Path := req.URL.Path
        RawQuery :=
          (values.Add (goStr "verify") (signatureOf key (bodyBytes req.Body))).Encode }
    Body := some (NopCloser (bodyBytes req.Body))
    Close := true }

/-- The log lines of the request. -/
def requestLog (logging : Bool) (req : Request) : List LogEntry :=
  if logging then [LogEntry.call req.Method req.URL, LogEntry.message (bodyBytes req.Body)]
  else []

/-- The end of `RoundTrip`, from the result of the transport on. -/
def finish (logging : Bool) (req2 : Request) (result : Option Response × Option Error)
    (message : GoString) (log1 : List LogEntry) : Outcome :=
  if logging then
    match result.1 with
    | none => Outcome.panicked req2 log1
    | some resp =>
      Outcome.returned req2
        (some { resp with Body := some (NopCloser (match resp.Body with
          | some body => (ReadAll body).1
          | none => message)) })
        result.2
        (log1 ++ [LogEntry.message (match resp.Body with
          | some body => (ReadAll body).1
          | none => message)])
  else Outcome.returned req2 result.1 result.2 log1

/-- The text of a key before its first colon (the whole key when it has none). -/
def beforeColon (key : GoString) : GoString := key.takeWhile (fun b => b ≠ colon)

/-- Whether a text is a non-negative integer in decimal digits: one or more digits. -/
def isNonNegativeInteger (s : GoString) : Bool := s ≠ [] && s.all isDigit

/-- The number a sequence of decimal digits denotes. -/
def decimalValue (digits : GoString) : Nat :=
  Nat.ofDigits 10 (digits.reverse.map (fun d => d.val - 0x30))

/-- Whether a text is a decimal integer that fits an `int` of `intSize` bits: an optional
sign `+` or `-`, then one or more decimal digits, the number denoted being at least
`-2^(intSize-1)` and less than `2^(intSize-1)`. -/
def isIntText (intSize : Nat) (s : GoString) : Bool :=
  match s with
  | [] => false
  | c :: rest =>
    if c = 0x2D then isNonNegativeInteger rest && decimalValue rest ≤ 2 ^ (intSize - 1)
    else if c = 0x2B then isNonNegativeInteger rest && decimalValue rest < 2 ^ (intSize - 1)
    else isNonNegativeInteger s && decimalValue s < 2 ^ (intSize - 1)

/-- The integer a signed decimal text denotes. -/
def intTextValue (s : GoString) : Int :=
  match s with
  | [] => 0
  | c :: rest =>
    if c = 0x2D then -(decimalValue rest : Int)
    else if c = 0x2B then (decimalValue rest : Int)
    else (decimalValue s : Int)

/-- The decimal rendering of a natural number, as a Go string. -/
def decimal (n : Nat) : GoString := goStr (toString n)

/-- A platform for the examples: `int` has 64 bits, and the authority validation of
`net/url` accepts the host of the default endpoint (and is not assumed to accept anything
else). -/
def examplePlatform : Platform :=
  { intSize := 64, parseAuthority := fun a => a = goStr "api.bigstep.com" }

/-- The function `DefaultEndpoint()`. -/
def DefaultEndpoint : GoString := goStr "https://api.bigstep.com/metal-cloud"

/-- Whether a text starts with a URL scheme (`letter (letter | digit | + | - | .)* :`), as
every absolute URL does. -/
def hasScheme (s : GoString) : Bool :=
  match getScheme s with
  | some (scheme, _) => scheme ≠ []
  | none => false

/-- Whether a byte separates the parts of a query string: `&`, `;` or `=`. -/
def isSeparator (b : Byte) : Bool := b = amp || b = semicolon || b = equalsSign

/-- The text `Encode` writes for one entry: the escaped key, `=`, the escaped value. -/
def queryPiece (key value : GoString) : GoString :=
  QueryEscape key ++ equalsSign :: QueryEscape value

/-- The (name, value) entries in the order `Encode` writes them: by increasing key, the
values of a key in their order. -/
def Values.sortedEntries (v : Values) : List (GoString × GoString) :=
  v.sortedKeys.flatMap (fun k => (v.Get k).map (fun x => (k, x)))

/-- The map built by adding the entries one after the other to the map `m`. -/
def Values.addAll (m : Values) (es : List (GoString × GoString)) : Values :=
  es.foldl (fun m e => m.Add e.1 e.2) m

/-- The identifier part of the signature, in the words of the specification: empty for a
key without colon; for a key with a colon, the text before its first colon, then a colon. -/
def identifierPart (key : GoString) : GoString :=
  if colon ∈ key then beforeColon key ++ [colon] else []

/-- The decimal rendering of an integer (`strconv.Itoa`). -/
def formatInt (n : Int) : GoString := goStr (toString n)

/-- A request for the examples: a `POST` to the default endpoint with the given query
string and body. -/
def exampleRequest (query : GoString) (body : Option GoString) : Request :=
  { Method := goStr "POST"
    URL :=
      { Scheme := goStr "https", Host := goStr "api.bigstep.com", Path := goStr "/metal-cloud",
        RawQuery := query }
    Body := body.map NopCloser
    Close := false }

/-- A transport for the examples: it answers every request with status 200 and the
given body. -/
def exampleTransport (body : Option GoString) : Transport :=
  fun _ => (some { StatusCode := 200, Body := body.map NopCloser }, none)

/-! ## `strings.Split`, `strconv.Atoi` and the constructor -/

theorem Split_ne_nil (s : GoString) (sep : Byte) : Split s sep ≠ [] := by
  induction s with
  | nil => simp [Split]
  | cons c cs ih =>
    unfold Split
    by_cases h : c = sep
    · simp [h]
    · simp only [h, if_false]
      split <;> simp

theorem Split_length_gt_one_iff (s : GoString) (sep : Byte) :
    (Split s sep).length > 1 ↔ sep ∈ s := by
  induction s with
  | nil => simp [Split]
  | cons c cs ih =>
    unfold Split
    by_cases h : c = sep
    · have := Split_ne_nil cs sep
      simp [h, List.length_pos, this]
    · simp only [h, if_false]
      have hne : ¬ sep = c := fun e => h e.symm
      rcases hs : Split cs sep with _ | ⟨a, t⟩
      · exact absurd hs (Split_ne_nil cs sep)
      · rw [hs] at ih
        simp only [List.length_cons] at ih ⊢
        simp [List.mem_cons, hne, ← ih]

theorem Split_head (s : GoString) (sep : Byte) :
    (Split s sep).head! = s.takeWhile (fun b => b ≠ sep) := by
  induction s with
  | nil => simp [Split]
  | cons c cs ih =>
    unfold Split
    by_cases h : c = sep
    · simp [h]
    · simp only [h, if_false]
      rcases hs : Split cs sep with _ | ⟨a, t⟩
      · exact absurd hs (Split_ne_nil cs sep)
      · rw [hs] at ih
        simp only [List.head!_cons] at ih
        simp [List.takeWhile_cons, h, ih]

theorem takeWhile_append_sep (p rest : GoString) (sep : Byte) (hp : sep ∉ p) :
    (p ++ sep :: rest).takeWhile (fun b => b ≠ sep) = p := by
  induction p with
  | nil => simp
  | cons c cs ih =>
    have hc : c ≠ sep := fun e => hp (by simp [e])
    have hcs : sep ∉ cs := fun e => hp (by simp [e])
    have h2 := ih hcs
    simp only [List.cons_append, List.takeWhile_cons, hc, ne_eq, not_false_eq_true, decide_True,
      if_true, h2]

theorem parseDigits_append (xs ys : GoString) (n : Nat) :
    parseDigits (xs ++ ys) n = (parseDigits xs n).bind (parseDigits ys) := by
  induction xs generalizing n with
  | nil => simp [parseDigits]
  | cons c cs ih =>
    simp only [List.cons_append, parseDigits]
    split
    · exact ih _
    · rfl

theorem decimalValue_concat (xs : GoString) (d : Byte) :
    decimalValue (xs ++ [d]) = decimalValue xs * 10 + (d.val - 0x30) := by
  simp [decimalValue, Nat.ofDigits_cons]
  ring

theorem parseDigits_eq (xs : GoString) :
    parseDigits xs 0 = if xs.all isDigit then some (decimalValue xs) else none := by
  induction xs using List.reverseRecOn with
  | nil => simp [parseDigits, decimalValue]
  | append_singleton xs d ih =>
    rw [parseDigits_append, ih, decimalValue_concat]
    by_cases hx : xs.all isDigit = true
    · by_cases hd : isDigit d = true
      · simp [hx, hd, parseDigits]
      · simp [hx, hd, parseDigits]
    · simp [hx]

theorem Atoi_eq (intSize : Nat) (s : GoString) :
    Atoi intSize s =
      if isIntText intSize s then Except.ok (intTextValue s) else Except.error Error.num := by
  rcases s with _ | ⟨c, rest⟩
  · simp [Atoi, isIntText]
  · by_cases h1 : c = 0x2D
    · subst h1
      simp only [Atoi, isIntText, intTextValue, List.head?_cons, List.tail_cons, true_or,
        if_true, parseDigits_eq, isNonNegativeInteger]
      by_cases hr : rest = []
      · simp [hr]
      · by_cases hd : rest.all isDigit = true
        · by_cases hv : decimalValue rest ≤ 2 ^ (intSize - 1) <;> simp [hr, hd, hv]
        · simp [hr, hd]
    · by_cases h2 : c = 0x2B
      · subst h2
        simp only [Atoi, isIntText, intTextValue, List.head?_cons, List.tail_cons,
          parseDigits_eq, isNonNegativeInteger]
        by_cases hr : rest = []
        · simp [hr]
        · by_cases hd : rest.all isDigit = true
          · by_cases hv : decimalValue rest < 2 ^ (intSize - 1) <;> simp [hr, hd, hv]
          · simp [hr, hd]
      · simp only [Atoi, isIntText, intTextValue, List.head?_cons, List.tail_cons,
          parseDigits_eq, isNonNegativeInteger, Option.some.injEq, h1, h2, or_self, if_false]
        by_cases hd : (c :: rest).all isDigit = true
        · by_cases hv : decimalValue (c :: rest) < 2 ^ (intSize - 1) <;> simp [hd, hv]
        · simp [hd]

theorem utf8_digitChar (k : Nat) (hk : k < 10) : utf8 (Nat.digitChar k) = [byte (0x30 + k)] := by
  interval_cases k <;> rfl

theorem toDigitsCore_spec (fuel n : Nat) (ds : List Char) (h : n < fuel) :
    ∃ L : List Char, Nat.toDigitsCore 10 fuel n ds = L ++ ds ∧ L ≠ [] ∧
      (L.flatMap utf8).all isDigit = true ∧ decimalValue (L.flatMap utf8) = n := by
  induction fuel generalizing n ds with
  | zero => omega
  | succ fuel ih =>
    have hmod : n % 10 < 10 := Nat.mod_lt _ (by decide)
    have hdig : isDigit (byte (0x30 + n % 10)) = true := by
      interval_cases (n % 10) <;> rfl
    have hval : (byte (0x30 + n % 10)).val - 0x30 = n % 10 := by
      interval_cases (n % 10) <;> rfl
    unfold Nat.toDigitsCore
    by_cases h0 : n / 10 = 0
    · refine ⟨[Nat.digitChar (n % 10)], by simp [h0], by simp, ?_, ?_⟩
      · simp [utf8_digitChar _ hmod, hdig]
      · have := decimalValue_concat [] (byte (0x30 + n % 10))
        simp only [List.nil_append] at this
        simp only [List.flatMap_cons, List.flatMap_nil, List.append_nil, utf8_digitChar _ hmod,
          this, hval]
        simp [decimalValue]
        omega
    · have hlt : n / 10 < fuel := by omega
      obtain ⟨L, hL, hne, hall, hv⟩ := ih (n / 10) (Nat.digitChar (n % 10) :: ds) hlt
      refine ⟨L ++ [Nat.digitChar (n % 10)], by simp [h0, hL], by simp, ?_, ?_⟩
      · simp only [List.flatMap_append, List.flatMap_cons, List.flatMap_nil, List.append_nil,
          utf8_digitChar _ hmod, List.all_append, hall, List.all_cons, hdig, List.all_nil,
          Bool.and_self]
      · simp only [List.flatMap_append, List.flatMap_cons, List.flatMap_nil, List.append_nil,
          utf8_digitChar _ hmod, decimalValue_concat, hv, hval]
        omega

theorem decimal_spec (n : Nat) :
    isNonNegativeInteger (decimal n) = true ∧ decimalValue (decimal n) = n := by
  obtain ⟨L, hL, hne, hall, hv⟩ := toDigitsCore_spec (n + 1) n [] (by omega)
  have hd : decimal n = L.flatMap utf8 := by
    have : (toString n).toList = Nat.toDigits 10 n := rfl
    simp only [decimal, goStr, this, Nat.toDigits, hL, List.append_nil]
  rw [hd]
  refine ⟨?_, hv⟩
  simp only [isNonNegativeInteger, hall, Bool.and_true, decide_eq_true_eq]
  intro hnil
  rcases L with _ | ⟨c, L⟩
  · exact hne rfl
  · have : utf8 c ≠ [] := by
      unfold utf8
      simp only
      split_ifs <;> simp
    simp [List.flatMap_cons] at hnil
    exact this hnil.1

theorem GetMetalcloudClient_valid (P : Platform) (user key endpoint : GoString) (logging : Bool)
    (hu : user ≠ []) (hk : key ≠ []) (he : ParseRequestURI P.parseAuthority endpoint = true) :
    GetMetalcloudClient P user key endpoint logging =
      if colon ∈ key then
        match Atoi P.intSize (beforeColon key) with
        | Except.error err => Except.error err
        | Except.ok n =>
          Except.ok
            { rpcClient :=
                { endpoint := endpoint,
                  Transport := { APIKey := key, LoggingEnabled := logging, DryRun := false } },
              user := user, apiKey := key, endpoint := endpoint, userID := n }
      else
        Except.ok
          { rpcClient :=
              { endpoint := endpoint,
                Transport := { APIKey := key, LoggingEnabled := logging, DryRun := false } },
            user := user, apiKey := key, endpoint := endpoint, userID := 0 } := by
  have hne : endpoint ≠ [] := by
    intro h
    rw [h] at he
    simp [ParseRequestURI, stringContainsCTLByte] at he
  unfold GetMetalcloudClient
  simp only [hu, hk, hne, he, if_false, not_true_eq_false, Split_length_gt_one_iff, Split_head,
    beforeColon]

/-- C9 (as the code has it): the constructor fails, with an error and no client, when the
user is empty, or the API key is empty, or the endpoint is empty or `url.ParseRequestURI`
rejects it. -/
theorem GetMetalcloudClient_invalid_configuration (P : Platform) (user key endpoint : GoString)
    (logging : Bool)
    (h : user = [] ∨ key = [] ∨ endpoint = [] ∨
      ParseRequestURI P.parseAuthority endpoint = false) :
    ∃ e, GetMetalcloudClient P user key endpoint logging = Except.error e := by
  unfold GetMetalcloudClient
  by_cases hu : user = []
  · exact ⟨Error.emptyUser, by simp [hu]⟩
  by_cases hk : key = []
  · exact ⟨Error.emptyAPIKey, by simp [hu, hk]⟩
  by_cases he : endpoint = []
  · exact ⟨Error.emptyEndpoint, by simp [hu, hk, he]⟩
  rcases h with h | h | h | h
  · exact absurd h hu
  · exact absurd h hk
  · exact absurd h he
  · exact ⟨Error.url, by simp [hu, hk, he, h]⟩

/-- An example of C9: the endpoint `api.bigstep.com`, without scheme and without leading
slash, is refused. -/
theorem GetMetalcloudClient_invalid_configuration_witness :
    (goStr "user" = [] ∨ goStr "key" = [] ∨ goStr "api.bigstep.com" = [] ∨
      ParseRequestURI examplePlatform.parseAuthority (goStr "api.bigstep.com") = false) ∧
    ∃ e, GetMetalcloudClient examplePlatform (goStr "user") (goStr "key")
      (goStr "api.bigstep.com") false = Except.error e :=
  ⟨by decide, GetMetalcloudClient_invalid_configuration _ _ _ _ _ (by decide)⟩

/-- C9 fails as stated: the endpoint `/rpc` is an absolute path, not an absolute URL (it
has no scheme), and the constructor returns a client for it. -/
theorem GetMetalcloudClient_accepts_absolute_path :
    hasScheme (goStr "/rpc") = false ∧
    GetMetalcloudClient examplePlatform (goStr "user") (goStr "key") (goStr "/rpc") false =
      Except.ok
        { rpcClient :=
            { endpoint := goStr "/rpc",
              Transport := { APIKey := goStr "key", LoggingEnabled := false, DryRun := false } },
          user := goStr "user", apiKey := goStr "key", endpoint := goStr "/rpc", userID := 0 } :=
  ⟨by decide, rfl⟩

theorem beforeColon_append (p rest : GoString) (hp : colon ∉ p) :
    beforeColon (p ++ colon :: rest) = p :=
  takeWhile_append_sep p rest colon hp

theorem colon_not_mem_of_digits (p : GoString) (hp : p.all isDigit = true) : colon ∉ p := by
  intro hmem
  have := (List.all_eq_true.mp hp) colon hmem
  exact absurd this (by decide)

theorem isIntText_of_digits (intSize : Nat) (p : GoString)
    (hp : isNonNegativeInteger p = true) :
    isIntText intSize p = decide (decimalValue p < 2 ^ (intSize - 1)) ∧
      intTextValue p = (decimalValue p : Int) := by
  rcases p with _ | ⟨c, rest⟩
  · simp [isNonNegativeInteger] at hp
  · have hc : isDigit c = true := by
      simp [isNonNegativeInteger] at hp
      exact hp.1
    have h1 : c ≠ 0x2D := by
      intro h; rw [h] at hc; exact absurd hc (by decide)
    have h2 : c ≠ 0x2B := by
      intro h; rw [h] at hc; exact absurd hc (by decide)
    simp [isIntText, intTextValue, h1, h2, hp]

/-- C7 (as the code has it): a key with a colon whose text before the first colon is not
a decimal integer that fits `int` (an optional sign, then one or more decimal digits) is
refused with the error of `strconv.Atoi`, for a non-empty user and an endpoint that
parses. -/
theorem GetMetalcloudClient_malformed_key (P : Platform) (user key endpoint : GoString)
    (logging : Bool) (hu : user ≠ [])
    (he : ParseRequestURI P.parseAuthority endpoint = true) (hc : colon ∈ key)
    (hbad : isIntText P.intSize (beforeColon key) = false) :
    GetMetalcloudClient P user key endpoint logging = Except.error Error.num := by
  have hk : key ≠ [] := by
    intro h; rw [h] at hc; simp at hc
  rw [GetMetalcloudClient_valid P user key endpoint logging hu hk he, if_pos hc, Atoi_eq, hbad]
  rfl

/-- An example of C7: the key `4x2:abcdef` is refused. -/
theorem GetMetalcloudClient_malformed_key_witness :
    (goStr "user" ≠ [] ∧ ParseRequestURI examplePlatform.parseAuthority DefaultEndpoint = true ∧
      colon ∈ goStr "4x2:abcdef" ∧
      isIntText examplePlatform.intSize (beforeColon (goStr "4x2:abcdef")) = false) ∧
    GetMetalcloudClient examplePlatform (goStr "user") (goStr "4x2:abcdef") DefaultEndpoint
      false = Except.error Error.num :=
  ⟨by decide,
    GetMetalcloudClient_malformed_key _ _ _ _ _ (by decide) (by decide) (by decide) (by decide)⟩

/-- C7 fails as stated: the key `-5:abc` has the text `-5` before its colon, which is not
a non-negative integer, and the constructor returns a client for it, with user
identifier -5. -/
theorem GetMetalcloudClient_accepts_negative :
    (goStr "user" ≠ [] ∧ ParseRequestURI examplePlatform.parseAuthority DefaultEndpoint = true ∧
      colon ∈ goStr "-5:abc" ∧ isNonNegativeInteger (beforeColon (goStr "-5:abc")) = false) ∧
    ∃ c, GetMetalcloudClient examplePlatform (goStr "user") (goStr "-5:abc") DefaultEndpoint
      false = Except.ok c ∧ c.GetUserID = -5 :=
  ⟨by decide, _, rfl, rfl⟩

/-- C8 (as the code has it): for a key that is the decimal rendering of a natural number
`N` below `2^(intSize-1)`, a colon and any text, the constructor succeeds and `GetUserID`
gives `N`, for a non-empty user and an endpoint that parses. -/
theorem GetMetalcloudClient_userID (P : Platform) (user rest endpoint : GoString) (N : Nat)
    (logging : Bool) (hu : user ≠ [])
    (he : ParseRequestURI P.parseAuthority endpoint = true) (hN : N < 2 ^ (P.intSize - 1)) :
    ∃ c, GetMetalcloudClient P user (decimal N ++ colon :: rest) endpoint logging = Except.ok c ∧
      c.GetUserID = (N : Int) := by
  obtain ⟨hnn, hv⟩ := decimal_spec N
  have hall : (decimal N).all isDigit = true := by
    simp only [isNonNegativeInteger, Bool.and_eq_true] at hnn
    exact hnn.2
  have hk : decimal N ++ colon :: rest ≠ [] := by simp
  have hc : colon ∈ decimal N ++ colon :: rest := by simp
  obtain ⟨h1, h2⟩ := isIntText_of_digits P.intSize (decimal N) hnn
  rw [GetMetalcloudClient_valid P user _ endpoint logging hu hk he, if_pos hc,
    beforeColon_append _ _ (colon_not_mem_of_digits _ hall), Atoi_eq, h1, h2, hv]
  simp only [hN, decide_True, if_true]
  exact ⟨_, rfl, rfl⟩

/-- An example of C8: the key `42:ab:cd` gives the user identifier 42. -/
theorem GetMetalcloudClient_userID_witness :
    (goStr "user" ≠ [] ∧ ParseRequestURI examplePlatform.parseAuthority DefaultEndpoint = true ∧
      42 < 2 ^ (examplePlatform.intSize - 1)) ∧
    ∃ c, GetMetalcloudClient examplePlatform (goStr "user") (decimal 42 ++ colon :: goStr "ab:cd")
      DefaultEndpoint false = Except.ok c ∧ c.GetUserID = ((42 : Nat) : Int) :=
  ⟨by decide, GetMetalcloudClient_userID _ _ _ _ 42 _ (by decide) (by decide) (by decide)⟩

/-- C8 fails as stated: for N = 2^63, a non-negative integer, the key
`9223372036854775808:abc` is refused on a platform whose `int` has 64 bits. -/
theorem GetMetalcloudClient_rejects_large :
    (goStr "user" ≠ [] ∧ ParseRequestURI examplePlatform.parseAuthority DefaultEndpoint = true ∧
      decimal (2 ^ 63) ++ colon :: goStr "abc" = goStr "9223372036854775808:abc") ∧
    GetMetalcloudClient examplePlatform (goStr "user") (decimal (2 ^ 63) ++ colon :: goStr "abc")
      DefaultEndpoint false = Except.error Error.num :=
  ⟨⟨by decide, by decide, by rfl⟩, by rfl⟩

/-! ## The shape of `RoundTrip` -/

theorem RoundTrip_parsed (c : signatureAdderRoundTripper) (tr : Transport) (req : Request)
    (values : Values) (h : ParseQuery req.URL.RawQuery = (values, none)) :
    RoundTrip c tr req =
      finish c.LoggingEnabled (signedRequest c.APIKey req values)
        (if ¬ c.DryRun then tr (signedRequest c.APIKey req values) else (none, none))
        (bodyBytes req.Body) (requestLog c.LoggingEnabled req) := by
  unfold RoundTrip
  simp only [h]
  by_cases hlen : (Split c.APIKey colon).length > 1
  · simp only [hlen, signedRequest, signatureOf, finish, requestLog, if_true, bodyBytes,
      List.append_assoc]
  · simp only [hlen, signedRequest, signatureOf, finish, requestLog, if_false, bodyBytes,
      List.nil_append]

theorem RoundTrip_unparsed (c : signatureAdderRoundTripper) (tr : Transport) (req : Request)
    (values : Values) (err : Error) (h : ParseQuery req.URL.RawQuery = (values, some err)) :
    RoundTrip c tr req =
      Outcome.fatal { req with Close := true, Body := some (NopCloser (bodyBytes req.Body)) }
        (requestLog c.LoggingEnabled req ++ [LogEntry.fatal err]) := by
  unfold RoundTrip
  simp only [h, requestLog, bodyBytes]


/-! ## The request body -/

/-- C3: whatever the outcome, the body `RoundTrip` leaves on the request is a reader of
exactly the bytes of the caller's body, ending without error; a request with a nil body
is left with a body of no bytes; and the process is ended (`log.Fatal`) only for a query
string that does not parse, never because of the body. -/
theorem RoundTrip_request_body (c : signatureAdderRoundTripper) (tr : Transport)
    (req : Request) :
    (∃ body, (RoundTrip c tr req).request.Body = some body ∧
      ReadAll body = (bodyBytes req.Body, none)) ∧
    (req.Body = none → (RoundTrip c tr req).request.Body = some (NopCloser [])) ∧
    ((∃ r l, RoundTrip c tr req = Outcome.fatal r l) ↔
      (ParseQuery req.URL.RawQuery).2 ≠ none) := by
  rcases h : ParseQuery req.URL.RawQuery with ⟨values, _ | err⟩
  · rw [RoundTrip_parsed c tr req values h]
    have hreq : ∀ res, (finish c.LoggingEnabled (signedRequest c.APIKey req values) res
        (bodyBytes req.Body) (requestLog c.LoggingEnabled req)).request =
        signedRequest c.APIKey req values := by
      intro res
      unfold finish
      cases c.LoggingEnabled
      · rfl
      · cases hres : res.1 <;> simp [hres, Outcome.request]
    refine ⟨⟨NopCloser (bodyBytes req.Body), ?_, rfl⟩, ?_, ?_⟩
    · rw [hreq]; rfl
    · intro hb
      rw [hreq]
      simp [signedRequest, hb, bodyBytes]
    · constructor
      · rintro ⟨r, l, hr⟩
        unfold finish at hr
        cases hl : c.LoggingEnabled
        · simp [hl] at hr
        · rw [hl] at hr
          simp only [if_true] at hr
          split at hr <;> simp at hr
      · intro hne
        exact absurd rfl hne
  · rw [RoundTrip_unparsed c tr req values err h]
    refine ⟨⟨NopCloser (bodyBytes req.Body), rfl, rfl⟩, ?_, ?_⟩
    · intro hb
      simp [Outcome.request, hb, bodyBytes]
    · constructor
      · intro _
        simp
      · intro _
        exact ⟨_, _, rfl⟩

/-! ## The result of the transport -/

/-- Without logging, `RoundTrip` returns what the transport returns, unchanged. -/
theorem RoundTrip_without_logging (key : GoString) (dryRun : Bool) (tr : Transport)
    (req : Request) (values : Values) (h : ParseQuery req.URL.RawQuery = (values, none)) :
    RoundTrip { APIKey := key, LoggingEnabled := false, DryRun := dryRun } tr req =
      Outcome.returned (signedRequest key req values)
        (if ¬ dryRun then tr (signedRequest key req values) else (none, none)).1
        (if ¬ dryRun then tr (signedRequest key req values) else (none, none)).2 [] := by
  rw [RoundTrip_parsed _ tr req values h]
  simp [finish, requestLog]

/-- C4: with logging enabled, when the transport fails (an error and no response) the
call does not return the error: it panics, at the read of `resp.Body` of a nil
response. -/
theorem RoundTrip_transport_error_with_logging (key : GoString) (req : Request)
    (values : Values) (e : Error) (h : ParseQuery req.URL.RawQuery = (values, none)) :
    ∃ r l, RoundTrip { APIKey := key, LoggingEnabled := true, DryRun := false }
      (fun _ => (none, some e)) req = Outcome.panicked r l := by
  rw [RoundTrip_parsed _ _ req values h]
  exact ⟨_, _, rfl⟩

/-- The failing input of C4: the key `42:abcdef`, logging enabled, a request with body
`hello`, a transport that reports error 1. -/
theorem RoundTrip_transport_error_with_logging_witness :
    ParseQuery (exampleRequest (goStr "a=1") (some (goStr "hello"))).URL.RawQuery =
        ([(goStr "a", [goStr "1"])], none) ∧
      ∃ r l, RoundTrip { APIKey := goStr "42:abcdef", LoggingEnabled := true, DryRun := false }
        (fun _ => (none, some (Error.transport 1)))
        (exampleRequest (goStr "a=1") (some (goStr "hello"))) = Outcome.panicked r l :=
  ⟨by decide, RoundTrip_transport_error_with_logging _ _ [(goStr "a", [goStr "1"])] _ (by decide)⟩

/-- C5: in dry-run mode with logging enabled the call does not return: it panics, at the
read of `resp.Body` of the nil response, whatever the transport. -/
theorem RoundTrip_dry_run_with_logging (key : GoString) (tr : Transport) (req : Request)
    (values : Values) (h : ParseQuery req.URL.RawQuery = (values, none)) :
    ∃ r l, RoundTrip { APIKey := key, LoggingEnabled := true, DryRun := true } tr req =
      Outcome.panicked r l := by
  rw [RoundTrip_parsed _ _ req values h]
  exact ⟨_, _, rfl⟩

/-- The failing input of C5: dry run and logging, a request without query string. -/
theorem RoundTrip_dry_run_with_logging_witness :
    ParseQuery (exampleRequest [] none).URL.RawQuery = ([], none) ∧
      ∃ r l, RoundTrip { APIKey := goStr "secretonly", LoggingEnabled := true, DryRun := true }
        (exampleTransport none) (exampleRequest [] none) = Outcome.panicked r l :=
  ⟨by decide, RoundTrip_dry_run_with_logging _ _ _ [] (by decide)⟩

/-- With logging enabled, a response that has a body is returned with a body of the same
bytes. -/
theorem RoundTrip_response_body_read (key : GoString) (req : Request) (values : Values)
    (status : Nat) (body : Reader) (err : Option Error)
    (h : ParseQuery req.URL.RawQuery = (values, none)) :
    ∃ r l, RoundTrip { APIKey := key, LoggingEnabled := true, DryRun := false }
      (fun _ => (some { StatusCode := status, Body := some body }, err)) req =
      Outcome.returned r (some { StatusCode := status, Body := some (NopCloser body.data) })
        err l := by
  rw [RoundTrip_parsed _ _ req values h]
  exact ⟨_, _, rfl⟩

/-- C6: with logging enabled, a response whose `Body` is nil is returned with a body
that yields the bytes of the request body, not zero bytes: the variable `message` still
holds the request body when the response body is rebuilt. -/
theorem RoundTrip_nil_response_body_with_logging (key : GoString) (req : Request)
    (values : Values) (status : Nat) (err : Option Error)
    (h : ParseQuery req.URL.RawQuery = (values, none)) :
    ∃ r l, RoundTrip { APIKey := key, LoggingEnabled := true, DryRun := false }
      (fun _ => (some { StatusCode := status, Body := none }, err)) req =
      Outcome.returned r
        (some { StatusCode := status, Body := some (NopCloser (bodyBytes req.Body)) })
        err l := by
  rw [RoundTrip_parsed _ _ req values h]
  exact ⟨_, _, rfl⟩

/-- The failing input of C6: logging enabled, request body `hello`, a response with a nil
body: the response comes back with the body `hello`. -/
theorem RoundTrip_nil_response_body_with_logging_witness :
    ParseQuery (exampleRequest [] (some (goStr "hello"))).URL.RawQuery = ([], none) ∧
      ∃ r l, RoundTrip { APIKey := goStr "secretonly", LoggingEnabled := true, DryRun := false }
        (fun _ => (some { StatusCode := 200, Body := none }, none))
        (exampleRequest [] (some (goStr "hello"))) =
        Outcome.returned r
          (some { StatusCode := 200, Body := some (NopCloser (goStr "hello")) }) none l :=
  ⟨by decide,
    RoundTrip_nil_response_body_with_logging _ (exampleRequest [] (some (goStr "hello"))) [] _ _
      (by decide)⟩

/-! ## The query string: `ParseQuery` after `Encode` -/

set_option maxRecDepth 100000 in
theorem escaped_byte (c : Byte) :
    (shouldEscape c = false →
      isSeparator c = false ∧ c ≠ percent ∧ c ≠ plus ∧ c ≠ space) ∧
    isSeparator (upperhex (c.val >>> 4)) = false ∧
    isSeparator (upperhex (c.val &&& 15)) = false ∧
    ishex (upperhex (c.val >>> 4)) = true ∧
    ishex (upperhex (c.val &&& 15)) = true ∧
    byte ((unhex (upperhex (c.val >>> 4)) <<< 4) ||| unhex (upperhex (c.val &&& 15))) = c := by
  revert c
  decide

theorem QueryEscape_no_separator (s : GoString) :
    ∀ b ∈ QueryEscape s, isSeparator b = false := by
  induction s with
  | nil => simp [QueryEscape]
  | cons c rest ih =>
    obtain ⟨h0, h1, h2, -⟩ := escaped_byte c
    unfold QueryEscape
    split_ifs with hs he
    · intro b hb
      rcases List.mem_cons.mp hb with rfl | hb
      · decide
      · exact ih b hb
    · intro b hb
      simp only [List.mem_cons] at hb
      rcases hb with rfl | rfl | rfl | hb
      · decide
      · exact h1
      · exact h2
      · exact ih b hb
    · intro b hb
      rcases List.mem_cons.mp hb with rfl | hb
      · exact (h0 (by simpa using he)).1
      · exact ih b hb

theorem validEscapes_cons_of_ne (c : Byte) (rest : GoString) (h : c ≠ percent) :
    validEscapes (c :: rest) = validEscapes rest := by
  have h2 : c ≠ (0x25 : Byte) := h
  rw [validEscapes.eq_def]
  simp only [h2, if_false]

theorem validEscapes_percent (a b : Byte) (rest : GoString) :
    validEscapes (percent :: a :: b :: rest) = (ishex a && ishex b && validEscapes rest) := by
  simp [validEscapes, percent]

theorem unescapeBytes_cons_of_ne (c : Byte) (rest : GoString) (h : c ≠ percent)
    (h2 : c ≠ plus) : unescapeBytes (c :: rest) = c :: unescapeBytes rest := by
  rw [unescapeBytes.eq_def]
  simp only [h, h2, if_false]

theorem unescapeBytes_plus (rest : GoString) :
    unescapeBytes (plus :: rest) = space :: unescapeBytes rest := by
  have : plus ≠ percent := by decide
  rw [unescapeBytes.eq_def]
  simp only [this, if_false, if_true]

theorem unescapeBytes_percent (a b : Byte) (rest : GoString) :
    unescapeBytes (percent :: a :: b :: rest) =
      byte ((unhex a <<< 4) ||| unhex b) :: unescapeBytes rest := by
  simp [unescapeBytes]

theorem validEscapes_QueryEscape (s : GoString) : validEscapes (QueryEscape s) = true := by
  induction s with
  | nil => simp [QueryEscape, validEscapes]
  | cons c rest ih =>
    obtain ⟨h0, -, -, h3, h4, -⟩ := escaped_byte c
    unfold QueryEscape
    split_ifs with hs he
    · rw [validEscapes_cons_of_ne _ _ (by decide), ih]
    · rw [validEscapes_percent, h3, h4, ih]
      rfl
    · rw [validEscapes_cons_of_ne _ _ (h0 (by simpa using he)).2.1, ih]

theorem unescapeBytes_QueryEscape (s : GoString) : unescapeBytes (QueryEscape s) = s := by
  induction s with
  | nil => simp [QueryEscape, unescapeBytes]
  | cons c rest ih =>
    obtain ⟨h0, -, -, -, -, h5⟩ := escaped_byte c
    unfold QueryEscape
    split_ifs with hs he
    · rw [unescapeBytes_plus, ih, hs]
    · rw [unescapeBytes_percent, h5, ih]
    · obtain ⟨-, hp, hq, -⟩ := h0 (by simpa using he)
      rw [unescapeBytes_cons_of_ne _ _ hp hq, ih]

theorem QueryUnescape_QueryEscape (s : GoString) :
    QueryUnescape (QueryEscape s) = Except.ok s := by
  simp [QueryUnescape, validEscapes_QueryEscape, unescapeBytes_QueryEscape]

theorem Cut_queryPiece (key value : GoString) :
    Cut (queryPiece key value) equalsSign = (QueryEscape key, QueryEscape value) := by
  have hk : ∀ b ∈ QueryEscape key, (fun b => decide (b ≠ equalsSign)) b = true := by
    intro b hb
    have := QueryEscape_no_separator key b hb
    simp only [isSeparator, Bool.or_eq_false_iff, decide_eq_false_iff_not] at this
    simpa using this.2
  unfold Cut queryPiece
  rw [List.takeWhile_append_of_pos hk, List.dropWhile_append_of_pos hk]
  simp [List.takeWhile_cons, List.dropWhile_cons]

theorem parseQueryPiece_queryPiece (acc : Values × Option Error) (key value : GoString) :
    parseQueryPiece acc (queryPiece key value) = (acc.1.Add key value, acc.2) := by
  have hsemi : semicolon ∉ queryPiece key value := by
    intro hmem
    unfold queryPiece at hmem
    rcases List.mem_append.mp hmem with h | h
    · exact absurd (QueryEscape_no_separator key _ h) (by decide)
    · rcases List.mem_cons.mp h with h | h
      · exact absurd h (by decide)
      · exact absurd (QueryEscape_no_separator value _ h) (by decide)
  have hne : queryPiece key value ≠ [] := by simp [queryPiece]
  unfold parseQueryPiece
  simp only [hsemi, hne, if_false, Cut_queryPiece, QueryUnescape_QueryEscape]

theorem Split_append_sep (a b : GoString) (sep : Byte) :
    Split (a ++ sep :: b) sep = Split a sep ++ Split b sep := by
  induction a with
  | nil => simp [Split]
  | cons c cs ih =>
    simp only [List.cons_append]
    rw [Split, Split]
    by_cases h : c = sep
    · simp [h, ih]
    · simp only [h, if_false, ih]
      rcases hs : Split cs sep with _ | ⟨x, t⟩
      · exact absurd hs (Split_ne_nil cs sep)
      · simp

theorem Split_of_not_mem (p : GoString) (sep : Byte) (h : sep ∉ p) : Split p sep = [p] := by
  induction p with
  | nil => simp [Split]
  | cons c cs ih =>
    have hc : c ≠ sep := fun e => h (by simp [e])
    have hcs : sep ∉ cs := fun e => h (by simp [e])
    rw [Split]
    simp [hc, ih hcs]

theorem amp_not_mem_queryPiece (key value : GoString) : amp ∉ queryPiece key value := by
  intro hmem
  unfold queryPiece at hmem
  rcases List.mem_append.mp hmem with h | h
  · exact absurd (QueryEscape_no_separator key _ h) (by decide)
  · rcases List.mem_cons.mp h with h | h
    · exact absurd h (by decide)
    · exact absurd (QueryEscape_no_separator value _ h) (by decide)

theorem ParseQuery_nil : ParseQuery [] = ([], none) := by decide

theorem ParseQuery_encodeEntry (buf key value : GoString) :
    ParseQuery (encodeEntry (QueryEscape key) buf value) =
      ((ParseQuery buf).1.Add key value, (ParseQuery buf).2) := by
  by_cases hb : buf = []
  · subst hb
    have : encodeEntry (QueryEscape key) [] value = queryPiece key value := by
      simp [encodeEntry, queryPiece]
    rw [this, ParseQuery_nil]
    unfold ParseQuery
    rw [Split_of_not_mem _ _ (amp_not_mem_queryPiece key value)]
    simp [parseQueryPiece_queryPiece]
  · have : encodeEntry (QueryEscape key) buf value = buf ++ amp :: queryPiece key value := by
      simp [encodeEntry, queryPiece, hb]
    rw [this]
    unfold ParseQuery
    rw [Split_append_sep, Split_of_not_mem _ _ (amp_not_mem_queryPiece key value),
      List.foldl_append]
    simp [parseQueryPiece_queryPiece]

theorem ParseQuery_foldl_encodeEntry (es : List (GoString × GoString)) (buf : GoString) :
    ParseQuery (es.foldl (fun buf e => encodeEntry (QueryEscape e.1) buf e.2) buf) =
      ((ParseQuery buf).1.addAll es, (ParseQuery buf).2) := by
  induction es generalizing buf with
  | nil => simp [Values.addAll]
  | cons e es ih =>
    simp only [List.foldl_cons]
    rw [ih, ParseQuery_encodeEntry]
    simp [Values.addAll]

theorem Encode_eq_foldl (v : Values) :
    v.Encode = v.sortedEntries.foldl (fun buf e => encodeEntry (QueryEscape e.1) buf e.2) [] := by
  unfold Values.Encode Values.sortedEntries
  generalize v.sortedKeys = keys
  generalize ([] : GoString) = buf
  induction keys generalizing buf with
  | nil => simp
  | cons k ks ih =>
    simp only [List.foldl_cons, List.flatMap_cons, List.foldl_append, List.foldl_map]
    exact ih _

theorem ParseQuery_Encode (v : Values) :
    ParseQuery v.Encode = (Values.addAll [] v.sortedEntries, none) := by
  rw [Encode_eq_foldl, ParseQuery_foldl_encodeEntry, ParseQuery_nil]

theorem Get_Add (m : Values) (key value k : GoString) :
    (m.Add key value).Get k = m.Get k ++ (if key = k then [value] else []) := by
  induction m with
  | nil =>
    by_cases h : key = k <;> simp [Values.Add, Values.Get, h]
  | cons kv rest ih =>
    obtain ⟨k0, xs⟩ := kv
    unfold Values.Add
    by_cases h0 : k0 = key
    · subst h0
      by_cases h : k0 = k <;> simp [Values.Get, h]
    · simp only [h0, if_false]
      by_cases h1 : k0 = k
      · have : key ≠ k := fun e => h0 (h1.trans e.symm)
        simp [Values.Get, h1, this]
      · simp [Values.Get, h1, ih]

theorem Get_addAll (es : List (GoString × GoString)) (m : Values) (k : GoString) :
    (m.addAll es).Get k = m.Get k ++ (es.filter (fun e => e.1 = k)).map Prod.snd := by
  induction es generalizing m with
  | nil => simp [Values.addAll]
  | cons e es ih =>
    have hstep : m.addAll (e :: es) = (m.Add e.1 e.2).addAll es := rfl
    rw [hstep, ih, Get_Add]
    by_cases h : e.1 = k <;> simp [List.filter_cons, h]

theorem entries_Add (m : Values) (key value : GoString) :
    (m.Add key value).entries.Perm ((key, value) :: m.entries) := by
  induction m with
  | nil => simp [Values.Add, Values.entries]
  | cons kv rest ih =>
    obtain ⟨k0, xs⟩ := kv
    unfold Values.Add
    by_cases h0 : k0 = key
    · subst h0
      simp only [if_true, Values.entries, List.flatMap_cons, List.map_append, List.map_cons,
        List.map_nil, List.append_assoc, List.singleton_append]
      exact (List.perm_middle).trans (List.Perm.refl _)
    · simp only [h0, if_false, Values.entries, List.flatMap_cons]
      have h1 : (xs.map (fun x => (k0, x)) ++ (Values.Add rest key value).entries).Perm
          (xs.map (fun x => (k0, x)) ++ (key, value) :: Values.entries rest) :=
        List.Perm.append_left _ ih
      exact h1.trans List.perm_middle

theorem entries_addAll (es : List (GoString × GoString)) (m : Values) :
    (m.addAll es).entries.Perm (m.entries ++ es) := by
  induction es generalizing m with
  | nil => simp [Values.addAll]
  | cons e es ih =>
    have hstep : m.addAll (e :: es) = (m.Add e.1 e.2).addAll es := rfl
    rw [hstep]
    refine (ih _).trans ?_
    refine ((entries_Add m e.1 e.2).append_right es).trans ?_
    simp only [List.cons_append]
    exact List.perm_middle.symm

theorem keys_Add (m : Values) (key value : GoString) :
    (m.Add key value).keys = if key ∈ m.keys then m.keys else m.keys ++ [key] := by
  induction m with
  | nil => simp [Values.Add, Values.keys]
  | cons kv rest ih =>
    obtain ⟨k0, xs⟩ := kv
    unfold Values.Add
    by_cases h0 : k0 = key
    · simp [h0, Values.keys]
    · have h1 : ¬ key = k0 := fun e => h0 e.symm
      simp only [Values.keys] at ih
      simp only [h0, if_false, Values.keys, List.map_cons, List.mem_cons, h1, false_or, ih]
      split_ifs <;> simp

theorem nodup_keys_Add (m : Values) (key value : GoString) (h : m.keys.Nodup) :
    (m.Add key value).keys.Nodup := by
  rw [keys_Add]
  split_ifs with hm
  · exact h
  · exact List.Nodup.append h (List.nodup_singleton key) (by simpa using hm)

theorem nodup_keys_parseQueryPiece (acc : Values × Option Error) (piece : GoString)
    (h : acc.1.keys.Nodup) : (parseQueryPiece acc piece).1.keys.Nodup := by
  unfold parseQueryPiece
  by_cases h1 : semicolon ∈ piece
  · simpa [h1] using h
  by_cases h2 : piece = []
  · simpa [h1, h2] using h
  simp only [h1, h2, if_false]
  rcases QueryUnescape (Cut piece equalsSign).1 with e | key
  · exact h
  · rcases QueryUnescape (Cut piece equalsSign).2 with e | value
    · exact h
    · exact nodup_keys_Add _ _ _ h

theorem nodup_keys_ParseQuery (query : GoString) : (ParseQuery query).1.keys.Nodup := by
  unfold ParseQuery
  generalize Split query amp = pieces
  have : ∀ (acc : Values × Option Error), acc.1.keys.Nodup →
      (pieces.foldl parseQueryPiece acc).1.keys.Nodup := by
    induction pieces with
    | nil => intro acc h; exact h
    | cons p ps ih => intro acc h; exact ih _ (nodup_keys_parseQueryPiece acc p h)
  exact this _ (by simp [Values.keys])

theorem Get_of_not_mem_keys (v : Values) (k : GoString) (h : k ∉ v.keys) : v.Get k = [] := by
  induction v with
  | nil => rfl
  | cons kv rest ih =>
    obtain ⟨k0, xs⟩ := kv
    simp only [Values.keys, List.map_cons, List.mem_cons, not_or] at h
    have h0 : ¬ k0 = k := fun e => h.1 e.symm
    simp only [Values.Get, h0, if_false]
    exact ih h.2

theorem flatMap_congr_mem {α β : Type} (l : List α) (f g : α → List β)
    (h : ∀ a ∈ l, f a = g a) : l.flatMap f = l.flatMap g := by
  induction l with
  | nil => rfl
  | cons a l ih =>
    simp only [List.flatMap_cons]
    rw [h a (by simp), ih (fun b hb => h b (by simp [hb]))]

theorem entries_eq_flatMap_keys (v : Values) (h : v.keys.Nodup) :
    v.entries = v.keys.flatMap (fun k => (v.Get k).map (fun x => (k, x))) := by
  induction v with
  | nil => rfl
  | cons kv rest ih =>
    obtain ⟨k0, xs⟩ := kv
    simp only [Values.keys, List.map_cons, List.nodup_cons] at h
    have ih2 := ih h.2
    simp only [Values.entries, Values.keys, List.flatMap_cons, List.map_cons] at ih2 ⊢
    rw [ih2]
    congr 1
    · simp [Values.Get]
    · apply flatMap_congr_mem
      intro k hk
      have : ¬ k0 = k := fun e => h.1 (e ▸ hk)
      simp [Values.Get, this]

theorem filter_flatMap_keys (v : Values) (keys : List GoString) (h : keys.Nodup)
    (k : GoString) :
    ((keys.flatMap (fun k1 => (v.Get k1).map (fun x => (k1, x)))).filter
        (fun e => e.1 = k)).map Prod.snd =
      if k ∈ keys then v.Get k else [] := by
  induction keys with
  | nil => simp
  | cons k1 ks ih =>
    simp only [List.nodup_cons] at h
    simp only [List.flatMap_cons, List.filter_append, List.map_append, ih h.2, List.mem_cons]
    by_cases hk : k1 = k
    · subst hk
      simp [List.filter_map, Function.comp_def, h.1]
    · have hk2 : ¬ k = k1 := fun e => hk e.symm
      simp [List.filter_map, Function.comp_def, hk, hk2]

theorem sortedKeys_perm (v : Values) : v.sortedKeys.Perm v.keys :=
  List.perm_insertionSort _ _

theorem Get_addAll_sortedEntries (v : Values) (h : v.keys.Nodup) (k : GoString) :
    (Values.addAll [] v.sortedEntries).Get k = v.Get k := by
  have hn : v.sortedKeys.Nodup := (sortedKeys_perm v).nodup_iff.mpr h
  rw [Get_addAll, Values.sortedEntries, filter_flatMap_keys v _ hn k]
  by_cases hk : k ∈ v.sortedKeys
  · simp [hk, Values.Get]
  · have : k ∉ v.keys := fun e => hk ((sortedKeys_perm v).mem_iff.mpr e)
    simp [hk, Values.Get, Get_of_not_mem_keys v k this]

theorem entries_addAll_sortedEntries (v : Values) (h : v.keys.Nodup) :
    (Values.addAll [] v.sortedEntries).entries.Perm v.entries := by
  refine (entries_addAll _ _).trans ?_
  rw [entries_eq_flatMap_keys v h]
  simp only [Values.entries, List.flatMap_nil, List.nil_append, Values.sortedEntries]
  exact List.Perm.flatMap_right _ (sortedKeys_perm v)

/-! ## The signature in the query string -/

theorem signatureOf_eq (key message : GoString) :
    signatureOf key message = identifierPart key ++ hexEncode (hmacMD5 key message) := by
  have hcolon : goStr ":" = [colon] := by decide
  unfold signatureOf identifierPart
  simp only [Split_length_gt_one_iff, Split_head, hcolon, beforeColon]

theorem request_of_parsed (c : signatureAdderRoundTripper) (tr : Transport) (req : Request)
    (values : Values) (h : ParseQuery req.URL.RawQuery = (values, none)) :
    (RoundTrip c tr req).request = signedRequest c.APIKey req values := by
  rw [RoundTrip_parsed c tr req values h]
  unfold finish
  cases c.LoggingEnabled
  · rfl
  · simp only [if_true]
    split <;> rfl

/-- C1: when the query string of the request parses, the query string `RoundTrip` writes
is the encoding of the parsed entries with one value added under `verify`: the identifier
part of the key (empty without colon, the text before the first colon and a colon
otherwise) followed by the lower-case hexadecimal HMAC-MD5 of the body bytes (none for a
nil body) under the whole key; read back, the values of `verify` are the former ones
followed by this value. -/
theorem RoundTrip_verify_value (c : signatureAdderRoundTripper) (tr : Transport)
    (req : Request) (values : Values) (h : ParseQuery req.URL.RawQuery = (values, none)) :
    (RoundTrip c tr req).request.URL.RawQuery =
      (values.Add (goStr "verify")
        (identifierPart c.APIKey ++ hexEncode (hmacMD5 c.APIKey (bodyBytes req.Body)))).Encode ∧
    ∃ v, ParseQuery (RoundTrip c tr req).request.URL.RawQuery = (v, none) ∧
      v.Get (goStr "verify") = values.Get (goStr "verify") ++
        [identifierPart c.APIKey ++ hexEncode (hmacMD5 c.APIKey (bodyBytes req.Body))] := by
  have hn : values.keys.Nodup := by
    have := nodup_keys_ParseQuery req.URL.RawQuery
    rwa [h] at this
  have hq : (RoundTrip c tr req).request.URL.RawQuery =
      (values.Add (goStr "verify")
        (identifierPart c.APIKey ++ hexEncode (hmacMD5 c.APIKey (bodyBytes req.Body)))).Encode := by
    rw [request_of_parsed c tr req values h]
    simp only [signedRequest, signatureOf_eq]
  refine ⟨hq, _, by rw [hq]; exact ParseQuery_Encode _, ?_⟩
  rw [Get_addAll_sortedEntries _ (nodup_keys_Add _ _ _ hn), Get_Add]
  simp

set_option maxRecDepth 100000 in
/-- The second example of C1: the key `42:abcdef` and no body give the value `42:` and
the digest under `verify`, after the entry that was in the query string. -/
theorem RoundTrip_verify_value_witness :
    ParseQuery (exampleRequest (goStr "a=1") none).URL.RawQuery =
        ([(goStr "a", [goStr "1"])], none) ∧
    ((RoundTrip { APIKey := goStr "42:abcdef", LoggingEnabled := false, DryRun := false }
        (exampleTransport none) (exampleRequest (goStr "a=1") none)).request.URL.RawQuery =
      (Values.Add [(goStr "a", [goStr "1"])] (goStr "verify")
        (identifierPart (goStr "42:abcdef") ++
          hexEncode (hmacMD5 (goStr "42:abcdef") (bodyBytes none)))).Encode ∧
    ∃ v, ParseQuery (RoundTrip
          { APIKey := goStr "42:abcdef", LoggingEnabled := false, DryRun := false }
          (exampleTransport none) (exampleRequest (goStr "a=1") none)).request.URL.RawQuery =
          (v, none) ∧
      v.Get (goStr "verify") = Values.Get [(goStr "a", [goStr "1"])] (goStr "verify") ++
        [identifierPart (goStr "42:abcdef") ++
          hexEncode (hmacMD5 (goStr "42:abcdef") (bodyBytes none))]) ∧
    identifierPart (goStr "42:abcdef") ++
        hexEncode (hmacMD5 (goStr "42:abcdef") (bodyBytes none)) =
      goStr "42:787ca4d9d522db39c7f9486e457fd354" :=
  ⟨by decide,
    RoundTrip_verify_value _ _ (exampleRequest (goStr "a=1") none) _ (by decide), by rfl⟩

set_option maxRecDepth 100000 in
/-- The first example of C1: the key `secretonly` and the body `hello` give the digest
alone, without colon. -/
theorem RoundTrip_verify_value_secretonly :
    (RoundTrip { APIKey := goStr "secretonly", LoggingEnabled := false, DryRun := false }
        (exampleTransport none) (exampleRequest [] (some (goStr "hello")))).request.URL.RawQuery =
      goStr "verify=eede5b55a3642b9c09b514f22840e466" ∧
    identifierPart (goStr "secretonly") = [] ∧
    colon ∉ hexEncode (hmacMD5 (goStr "secretonly") (goStr "hello")) :=
  ⟨by rfl, by decide, by decide⟩

/-- C2: when the query string of the request parses, the query string `RoundTrip` writes
parses too, to the entries that were there before and one more, the signature under
`verify`: the entries are those of before and the new one up to their order, each former
entry is still there, the number of entries is one more, and each key has its former
values in their order, followed under `verify` by the signature. -/
theorem RoundTrip_query_entries (c : signatureAdderRoundTripper) (tr : Transport)
    (req : Request) (values : Values) (h : ParseQuery req.URL.RawQuery = (values, none)) :
    ∃ v, ParseQuery (RoundTrip c tr req).request.URL.RawQuery = (v, none) ∧
      v.entries.Perm
        ((goStr "verify",
          identifierPart c.APIKey ++ hexEncode (hmacMD5 c.APIKey (bodyBytes req.Body))) ::
          values.entries) ∧
      (goStr "verify",
        identifierPart c.APIKey ++ hexEncode (hmacMD5 c.APIKey (bodyBytes req.Body))) ∈
          v.entries ∧
      (∀ e ∈ values.entries, e ∈ v.entries) ∧
      v.entries.length = values.entries.length + 1 ∧
      ∀ k, v.Get k = values.Get k ++
        if goStr "verify" = k then
          [identifierPart c.APIKey ++ hexEncode (hmacMD5 c.APIKey (bodyBytes req.Body))]
        else [] := by
  have hn : values.keys.Nodup := by
    have := nodup_keys_ParseQuery req.URL.RawQuery
    rwa [h] at this
  have hq : (RoundTrip c tr req).request.URL.RawQuery =
      (values.Add (goStr "verify")
        (identifierPart c.APIKey ++ hexEncode (hmacMD5 c.APIKey (bodyBytes req.Body)))).Encode := by
    rw [request_of_parsed c tr req values h]
    simp only [signedRequest, signatureOf_eq]
  have hn2 := nodup_keys_Add values (goStr "verify")
    (identifierPart c.APIKey ++ hexEncode (hmacMD5 c.APIKey (bodyBytes req.Body))) hn
  have hperm := (entries_addAll_sortedEntries _ hn2).trans (entries_Add values (goStr "verify")
    (identifierPart c.APIKey ++ hexEncode (hmacMD5 c.APIKey (bodyBytes req.Body))))
  refine ⟨_, by rw [hq]; exact ParseQuery_Encode _, hperm, ?_, ?_, ?_, ?_⟩
  · exact hperm.mem_iff.mpr (by simp)
  · intro e he
    exact hperm.mem_iff.mpr (by simp [he])
  · rw [hperm.length_eq]
    simp
  · intro k
    rw [Get_addAll_sortedEntries _ hn2, Get_Add]

set_option maxRecDepth 100000 in
/-- An example of C2: the query string `a=1&verify=old&a=2` has three entries; after the
call there are four, the three of before and the signature. -/
theorem RoundTrip_query_entries_witness :
    ParseQuery (exampleRequest (goStr "a=1&verify=old&a=2") none).URL.RawQuery =
        ([(goStr "a", [goStr "1", goStr "2"]), (goStr "verify", [goStr "old"])], none) ∧
    ∃ v, ParseQuery (RoundTrip
          { APIKey := goStr "42:abcdef", LoggingEnabled := false, DryRun := false }
          (exampleTransport none)
          (exampleRequest (goStr "a=1&verify=old&a=2") none)).request.URL.RawQuery = (v, none) ∧
      v.entries.Perm
        ((goStr "verify",
          identifierPart (goStr "42:abcdef") ++
            hexEncode (hmacMD5 (goStr "42:abcdef") (bodyBytes none))) ::
          Values.entries
            [(goStr "a", [goStr "1", goStr "2"]), (goStr "verify", [goStr "old"])]) ∧
      (goStr "verify",
        identifierPart (goStr "42:abcdef") ++
          hexEncode (hmacMD5 (goStr "42:abcdef") (bodyBytes none))) ∈ v.entries ∧
      (∀ e ∈ Values.entries
          [(goStr "a", [goStr "1", goStr "2"]), (goStr "verify", [goStr "old"])],
        e ∈ v.entries) ∧
      v.entries.length =
        (Values.entries
          [(goStr "a", [goStr "1", goStr "2"]), (goStr "verify", [goStr "old"])]).length + 1 ∧
      ∀ k, v.Get k =
        Values.Get [(goStr "a", [goStr "1", goStr "2"]), (goStr "verify", [goStr "old"])] k ++
        if goStr "verify" = k then
          [identifierPart (goStr "42:abcdef") ++
            hexEncode (hmacMD5 (goStr "42:abcdef") (bodyBytes none))]
        else [] :=
  ⟨by decide,
    RoundTrip_query_entries _ _ (exampleRequest (goStr "a=1&verify=old&a=2") none) _
      (by decide)⟩

theorem GetMetalcloudClient_ok_inv (P : Platform) (user key endpoint : GoString)
    (logging : Bool) (c : Client)
    (hok : GetMetalcloudClient P user key endpoint logging = Except.ok c) :
    c.rpcClient.Transport.APIKey = key ∧
      (colon ∈ key → Atoi P.intSize (beforeColon key) = Except.ok c.userID) := by
  unfold GetMetalcloudClient at hok
  by_cases hu : user = []
  · simp [hu] at hok
  by_cases hk : key = []
  · simp [hu, hk] at hok
  by_cases he : endpoint = []
  · simp [hu, hk, he] at hok
  by_cases hp : ParseRequestURI P.parseAuthority endpoint = true
  · simp only [hu, hk, he, hp, if_false, not_true_eq_false, Split_length_gt_one_iff,
      Split_head] at hok
    by_cases hc : colon ∈ key
    · simp only [hc, if_true] at hok
      rcases ha : Atoi P.intSize (List.takeWhile (fun b => decide (b ≠ colon)) key) with e | n
      · rw [ha] at hok
        simp at hok
      · rw [ha] at hok
        simp only [Except.ok.injEq] at hok
        subst hok
        exact ⟨rfl, fun _ => ha⟩
    · simp only [hc, if_false, Except.ok.injEq] at hok
      subst hok
      exact ⟨rfl, fun h => absurd h hc⟩
  · simp [hu, hk, he, hp] at hok

/-- C10 (as the code has it): for a key with a colon that the constructor accepts, the
value the transport of the client adds under `verify` starts with the text of the key
before its first colon, as the key has it, and a colon; `strconv.Atoi` reads from that
text the integer `GetUserID` returns. -/
theorem RoundTrip_identifier_of_client (P : Platform) (user key endpoint : GoString)
    (logging : Bool) (c : Client) (tr : Transport) (req : Request) (values : Values)
    (hc : colon ∈ key)
    (hok : GetMetalcloudClient P user key endpoint logging = Except.ok c)
    (h : ParseQuery req.URL.RawQuery = (values, none)) :
    (RoundTrip c.rpcClient.Transport tr req).request.URL.RawQuery =
      (values.Add (goStr "verify")
        (beforeColon key ++ goStr ":" ++ hexEncode (hmacMD5 key (bodyBytes req.Body)))).Encode ∧
    Atoi P.intSize (beforeColon key) = Except.ok c.GetUserID := by
  obtain ⟨hkey, hat⟩ := GetMetalcloudClient_ok_inv P user key endpoint logging c hok
  refine ⟨?_, hat hc⟩
  have hcolon : goStr ":" = [colon] := by decide
  rw [request_of_parsed _ tr req values h, hkey]
  simp only [signedRequest, signatureOf_eq, identifierPart, hc, if_true, hcolon]

set_option maxRecDepth 100000 in
/-- An example of C10: the key `42:abcdef`. -/
theorem RoundTrip_identifier_of_client_witness :
    (colon ∈ goStr "42:abcdef" ∧
      GetMetalcloudClient examplePlatform (goStr "user") (goStr "42:abcdef") DefaultEndpoint
        false =
        Except.ok
          { rpcClient :=
              { endpoint := DefaultEndpoint,
                Transport :=
                  { APIKey := goStr "42:abcdef", LoggingEnabled := false, DryRun := false } },
            user := goStr "user", apiKey := goStr "42:abcdef", endpoint := DefaultEndpoint,
            userID := 42 } ∧
      ParseQuery (exampleRequest [] none).URL.RawQuery = ([], none)) ∧
    (RoundTrip { APIKey := goStr "42:abcdef", LoggingEnabled := false, DryRun := false }
        (exampleTransport none) (exampleRequest [] none)).request.URL.RawQuery =
      (Values.Add [] (goStr "verify")
        (beforeColon (goStr "42:abcdef") ++ goStr ":" ++
          hexEncode (hmacMD5 (goStr "42:abcdef") (bodyBytes none)))).Encode ∧
    Atoi examplePlatform.intSize (beforeColon (goStr "42:abcdef")) = Except.ok 42 :=
  ⟨⟨by decide, rfl, by decide⟩,
    RoundTrip_identifier_of_client examplePlatform (goStr "user") (goStr "42:abcdef")
      DefaultEndpoint false _ (exampleTransport none) (exampleRequest [] none) []
      (by decide) rfl (by decide)⟩

set_option maxRecDepth 100000 in
/-- C10 fails as stated: the constructor accepts the key `007:abc` and `GetUserID`
returns 7, whose decimal rendering is `7`, but the transport of the client sends `007:`
before the digest, not `7:`. -/
theorem RoundTrip_identifier_not_rendering :
    ∃ c, GetMetalcloudClient examplePlatform (goStr "user") (goStr "007:abc") DefaultEndpoint
        false = Except.ok c ∧
      c.GetUserID = 7 ∧ formatInt c.GetUserID = goStr "7" ∧
      (RoundTrip c.rpcClient.Transport (exampleTransport none)
          (exampleRequest [] none)).request.URL.RawQuery =
        goStr "verify=007%3A5324b344735fa2c4017f2eaf72b39b6b" ∧
      (Values.Add [] (goStr "verify")
          (formatInt c.GetUserID ++ goStr ":" ++
            hexEncode (hmacMD5 (goStr "007:abc") (bodyBytes none)))).Encode =
        goStr "verify=7%3A5324b344735fa2c4017f2eaf72b39b6b" ∧
      (RoundTrip c.rpcClient.Transport (exampleTransport none)
          (exampleRequest [] none)).request.URL.RawQuery ≠
        (Values.Add [] (goStr "verify")
          (formatInt c.GetUserID ++ goStr ":" ++
            hexEncode (hmacMD5 (goStr "007:abc") (bodyBytes none)))).Encode :=
  ⟨_, rfl, rfl, by rfl, by rfl, by rfl, by decide⟩

end Metalcloud
